import Mathlib

/-!
# Verification of the immich-slideshow stylization scripts

Shallow embedding of the two near-identical `stylize.py` scripts and of
`fetch_model.py`, together with proofs of the specified properties.

Modelling conventions:
* Numeric tensor values are exact rationals (`ℚ`).  The rounding of
  `float32` and the finite width of `int32` are abstracted away, but the
  IEEE-754 special values produced by division by zero (`inf`, `nan`) are
  modelled explicitly by the type `FVal`, because the behaviour of
  `load_img` on a degenerate zero-dimension image hinges on them.
* Stateful script behaviour (printing, exiting, loading, saving) is
  modelled as a list of effects.
* Image decoding is external I/O; a decoded image is a grid of RGB byte
  values (`RawImage`).
-/

namespace Stylize

/-! ## Float values with IEEE-754 special values

`tf` float arithmetic does not raise on division by zero: `x / 0` is
`inf` for `x > 0` and `nan` for `x = 0`, and `0 * inf` is `nan`.  The
finite values are modelled as exact rationals. -/

/-- A floating-point value: finite (exact rational), positive infinity,
or not-a-number.  All values arising in `load_img` are nonnegative, so a
negative infinity is not needed. -/
inductive FVal where
  | fin : ℚ → FVal
  | inf : FVal
  | nan : FVal
deriving DecidableEq

/-- IEEE-754 division restricted to the nonnegative values that occur in
`load_img`: a nonzero finite value divided by zero is `inf`, zero divided
by zero is `nan`; `nan` propagates. -/
def fdiv : FVal → FVal → FVal
  | FVal.nan, _ => FVal.nan
  | _, FVal.nan => FVal.nan
  | FVal.fin a, FVal.fin b =>
      if b = 0 then (if a = 0 then FVal.nan else FVal.inf) else FVal.fin (a / b)
  | FVal.fin _, FVal.inf => FVal.fin 0
  | FVal.inf, FVal.fin _ => FVal.inf
  | FVal.inf, FVal.inf => FVal.nan

/-- IEEE-754 multiplication restricted to nonnegative values: `0 * inf`
is `nan`; `nan` propagates. -/
def fmul : FVal → FVal → FVal
  | FVal.nan, _ => FVal.nan
  | _, FVal.nan => FVal.nan
  | FVal.fin a, FVal.fin b => FVal.fin (a * b)
  | FVal.fin a, FVal.inf => if a = 0 then FVal.nan else FVal.inf
  | FVal.inf, FVal.fin b => if b = 0 then FVal.nan else FVal.inf
  | FVal.inf, FVal.inf => FVal.inf

/-- Truncation toward zero of a rational, as the float-to-integer cast
does. -/
def truncQ (q : ℚ) : ℤ := if 0 ≤ q then ⌊q⌋ else -⌊-q⌋

/-- `tf.cast(·, tf.int32)`: a finite value is truncated toward zero; the
cast of `inf` or `nan` has no defined result (`none`). -/
def castI32 : FVal → Option ℤ
  | FVal.fin q => some (truncQ q)
  | _ => none

/-! ## The resize computation of `load_img`

```
shape     = tf.cast(tf.shape(img)[:-1], tf.float32)   -- (h, w)
long_dim  = tf.reduce_max(shape)                       -- max h w
scale     = max_dim / long_dim
new_shape = tf.cast(shape * scale, tf.int32)
```
-/

/-- `scale = max_dim / long_dim`, in float arithmetic. -/
def scaleOf (maxDim longDim : ℚ) : FVal := fdiv (FVal.fin maxDim) (FVal.fin longDim)

/-- `new_shape = tf.cast(shape * scale, tf.int32)` for an image of
spatial dimensions `(h, w)`: both components of the resize target, each
`none` when the cast has no defined result. -/
def newShape (h w maxDim : ℕ) : Option ℤ × Option ℤ :=
  let longDim : ℚ := max (h : ℚ) (w : ℚ)
  let scale := scaleOf (maxDim : ℚ) longDim
  (castI32 (fmul (FVal.fin (h : ℚ)) scale), castI32 (fmul (FVal.fin (w : ℚ)) scale))

/-! ### Resize arithmetic lemmas -/

theorem truncQ_of_nonneg {q : ℚ} (h : 0 ≤ q) : truncQ q = ⌊q⌋ := by
  simp [truncQ, h]

theorem scaleOf_pos {m L : ℚ} (hL : L ≠ 0) : scaleOf m L = FVal.fin (m / L) := by
  simp [scaleOf, fdiv, hL]

/-- For positive dimensions the resize computation is exact rational
arithmetic: each new dimension is the floor of the old dimension times
the single scale factor `maxDim / max h w`. -/
theorem newShape_pos (h w maxDim : ℕ) (hh : 0 < h) (hw : 0 < w) :
    newShape h w maxDim =
      (some ⌊(h : ℚ) * ((maxDim : ℚ) / max (h : ℚ) (w : ℚ))⌋,
       some ⌊(w : ℚ) * ((maxDim : ℚ) / max (h : ℚ) (w : ℚ))⌋) := by
  have hmax : (0 : ℚ) < max (h : ℚ) (w : ℚ) :=
    lt_max_of_lt_left (by exact_mod_cast hh)
  have hne : max (h : ℚ) (w : ℚ) ≠ 0 := ne_of_gt hmax
  have hscale : (0 : ℚ) ≤ (maxDim : ℚ) / max (h : ℚ) (w : ℚ) :=
    div_nonneg (Nat.cast_nonneg _) (le_of_lt hmax)
  have h1 : (0 : ℚ) ≤ (h : ℚ) * ((maxDim : ℚ) / max (h : ℚ) (w : ℚ)) :=
    mul_nonneg (Nat.cast_nonneg _) hscale
  have h2 : (0 : ℚ) ≤ (w : ℚ) * ((maxDim : ℚ) / max (h : ℚ) (w : ℚ)) :=
    mul_nonneg (Nat.cast_nonneg _) hscale
  simp [newShape, scaleOf_pos hne, fmul, castI32, truncQ_of_nonneg h1, truncQ_of_nonneg h2]

theorem floor_self_mul_div (d m : ℕ) (hd : 0 < d) :
    ⌊(d : ℚ) * ((m : ℚ) / (d : ℚ))⌋ = (m : ℤ) := by
  have hne : (d : ℚ) ≠ 0 := by exact_mod_cast hd.ne'
  rw [mul_div_assoc', mul_comm, mul_div_assoc, div_self hne, mul_one, Int.floor_natCast]

theorem floor_dim_le (d L m : ℕ) (hL : 0 < L) (hdL : d ≤ L) :
    ⌊(d : ℚ) * ((m : ℚ) / (L : ℚ))⌋ ≤ (m : ℤ) := by
  have hscale : (0 : ℚ) ≤ (m : ℚ) / (L : ℚ) :=
    div_nonneg (Nat.cast_nonneg _) (Nat.cast_nonneg _)
  have hle : (d : ℚ) * ((m : ℚ) / (L : ℚ)) ≤ (L : ℚ) * ((m : ℚ) / (L : ℚ)) :=
    mul_le_mul_of_nonneg_right (by exact_mod_cast hdL) hscale
  calc ⌊(d : ℚ) * ((m : ℚ) / (L : ℚ))⌋
      ≤ ⌊(L : ℚ) * ((m : ℚ) / (L : ℚ))⌋ := Int.floor_le_floor hle
    _ = (m : ℤ) := floor_self_mul_div L m hL

/-- C1: for positive spatial dimensions `(h, w)` and positive `max_dim`,
`load_img` computes the single uniform scale factor `max_dim / max h w`;
both new dimensions are its product with the old ones (truncated by the
`int32` cast), the longer of the two resulting dimensions equals
`max_dim` exactly, and in particular for the content image
(`max_dim = 1024`) both output dimensions are at most `1024`. -/
theorem load_img_resize_long_side (h w maxDim : ℕ)
    (hh : 0 < h) (hw : 0 < w) (hm : 0 < maxDim) :
    ∃ nh nw : ℤ,
      newShape h w maxDim = (some nh, some nw) ∧
      nh = ⌊(h : ℚ) * ((maxDim : ℚ) / max (h : ℚ) (w : ℚ))⌋ ∧
      nw = ⌊(w : ℚ) * ((maxDim : ℚ) / max (h : ℚ) (w : ℚ))⌋ ∧
      max nh nw = (maxDim : ℤ) ∧
      (maxDim = 1024 → nh ≤ 1024 ∧ nw ≤ 1024) := by
  refine ⟨_, _, newShape_pos h w maxDim hh hw, rfl, rfl, ?_, ?_⟩
  · rcases le_total h w with hle | hle
    · have hcast : (h : ℚ) ≤ (w : ℚ) := by exact_mod_cast hle
      have hmaxq : max (h : ℚ) (w : ℚ) = (w : ℚ) := max_eq_right hcast
      have hscale : (0 : ℚ) ≤ (maxDim : ℚ) / max (h : ℚ) (w : ℚ) := by
        have : (0 : ℚ) < max (h : ℚ) (w : ℚ) :=
          lt_max_of_lt_left (by exact_mod_cast hh)
        exact div_nonneg (Nat.cast_nonneg _) this.le
      have hmono :
          ⌊(h : ℚ) * ((maxDim : ℚ) / max (h : ℚ) (w : ℚ))⌋ ≤
          ⌊(w : ℚ) * ((maxDim : ℚ) / max (h : ℚ) (w : ℚ))⌋ :=
        Int.floor_le_floor (mul_le_mul_of_nonneg_right hcast hscale)
      rw [max_eq_right hmono, hmaxq, floor_self_mul_div w maxDim hw]
    · have hcast : (w : ℚ) ≤ (h : ℚ) := by exact_mod_cast hle
      have hmaxq : max (h : ℚ) (w : ℚ) = (h : ℚ) := max_eq_left hcast
      have hscale : (0 : ℚ) ≤ (maxDim : ℚ) / max (h : ℚ) (w : ℚ) := by
        have : (0 : ℚ) < max (h : ℚ) (w : ℚ) :=
          lt_max_of_lt_left (by exact_mod_cast hh)
        exact div_nonneg (Nat.cast_nonneg _) this.le
      have hmono :
          ⌊(w : ℚ) * ((maxDim : ℚ) / max (h : ℚ) (w : ℚ))⌋ ≤
          ⌊(h : ℚ) * ((maxDim : ℚ) / max (h : ℚ) (w : ℚ))⌋ :=
        Int.floor_le_floor (mul_le_mul_of_nonneg_right hcast hscale)
      rw [max_eq_left hmono, hmaxq, floor_self_mul_div h maxDim hh]
  · intro hm1024
    subst hm1024
    have hLpos : 0 < max h w := lt_of_lt_of_le hh (le_max_left h w)
    have hcm : max (h : ℚ) (w : ℚ) = ((max h w : ℕ) : ℚ) := by
      exact (Nat.cast_max h w).symm
    constructor
    · rw [hcm]
      exact_mod_cast floor_dim_le h (max h w) 1024 hLpos (le_max_left h w)
    · rw [hcm]
      exact_mod_cast floor_dim_le w (max h w) 1024 hLpos (le_max_right h w)

/-- Concrete instantiation of C1: a 600 by 800 content image at
`max_dim = 1024` resizes to spatial dimensions `(768, 1024)`. -/
theorem load_img_resize_long_side_witness :
    newShape 600 800 1024 = (some 768, some 1024) := by
  obtain ⟨nh, nw, heq, hnh, hnw, hmax, h1024⟩ :=
    load_img_resize_long_side 600 800 1024 (by norm_num) (by norm_num) (by norm_num)
  rw [heq, hnh, hnw]
  norm_num

/-! ## Degenerate zero-dimension images (C6)

When both spatial dimensions are `0`, `long_dim = 0` and the float
division `max_dim / long_dim` does not raise: it yields `inf`, the
product `0 * inf` is `nan`, and the `int32` cast of `nan` has no defined
result.  The scale computation therefore proceeds silently. -/

/-- C6 counterexample: at a degenerate 0 by 0 image with `max_dim = 1024`
the scale computation `max_dim / long_dim` silently yields `inf` (it is
not an error), and the resize-shape cast has no defined value — `load_img`
does not fail loudly at the scale computation. -/
theorem scale_zero_dim_counterexample :
    scaleOf 1024 0 = FVal.inf ∧ newShape 0 0 1024 = (none, none) := by
  constructor
  · simp [scaleOf, fdiv]
  · simp [newShape, scaleOf, fdiv, fmul, castI32]

/-- C6 (amended): for every positive `max_dim`, when `long_dim = 0` the
scale computation silently proceeds and produces `inf`; the subsequent
`shape * scale` product is `nan` and the `int32` cast of it has no
defined value, so `load_img` produces an undefined resize shape rather
than raising at the scale computation. -/
theorem scale_zero_dim_silent (m : ℕ) (hm : 0 < m) :
    scaleOf (m : ℚ) 0 = FVal.inf ∧
    fmul (FVal.fin 0) (scaleOf (m : ℚ) 0) = FVal.nan ∧
    newShape 0 0 m = (none, none) := by
  have hm' : (m : ℚ) ≠ 0 := by exact_mod_cast hm.ne'
  refine ⟨?_, ?_, ?_⟩
  · simp [scaleOf, fdiv, hm']
  · simp [scaleOf, fdiv, fmul, hm']
  · simp [newShape, scaleOf, fdiv, fmul, castI32, hm']

/-- Concrete instantiation of the amended C6 at `max_dim = 450`. -/
theorem scale_zero_dim_silent_witness :
    newShape 0 0 450 = (none, none) :=
  (scale_zero_dim_silent 450 (by norm_num)).2.2

/-! ## The CLI entry point (C2)

```
if len(sys.argv) != 4:
    print("Usage: ...")
    exit(1)
...
hub_model = tf.saved_model.load('/app/saved_model')
content_image = load_img(content_path, max_dim=1024)
style_image = load_img(style_path, max_dim=450)
stylized_image = hub_model(...)[0]
combined.save(sys.argv[3])
```
The script's observable behaviour is modelled as a list of effects. -/

/-- One observable step of the stylize script. -/
inductive CliStep where
  | printUsage
  | exitWith (code : ℕ)
  | loadModel (dir : String)
  | loadImage (path : String) (maxDim : ℕ)
  | invokeModel
  | saveOutput (path : String)
deriving DecidableEq

/-- The effect trace of the stylize script on argument vector `argv`
(`argv.head` is the script name, as in `sys.argv`). -/
def stylize_main (argv : List String) : List CliStep :=
  if argv.length ≠ 4 then [CliStep.printUsage, CliStep.exitWith 1]
  else [CliStep.loadModel "/app/saved_model",
        CliStep.loadImage (argv.getD 1 "") 1024,
        CliStep.loadImage (argv.getD 2 "") 450,
        CliStep.invokeModel,
        CliStep.saveOutput (argv.getD 3 "")]

/-- C2: with an argument count other than exactly three positional
arguments the script prints the usage message and exits with code 1,
performing no other work — in particular no output file is written; with
exactly three positional arguments it proceeds past the check and reaches
the output-saving step. -/
theorem cli_arg_check (script : String) (args : List String) :
    (args.length ≠ 3 →
      stylize_main (script :: args) = [CliStep.printUsage, CliStep.exitWith 1] ∧
      ∀ p, CliStep.saveOutput p ∉ stylize_main (script :: args)) ∧
    (args.length = 3 →
      CliStep.saveOutput (args.getD 2 "") ∈ stylize_main (script :: args)) := by
  constructor
  · intro h
    have h4 : (script :: args).length ≠ 4 := by
      simp only [List.length_cons]
      omega
    refine ⟨by simp [stylize_main, h4, h], ?_⟩
    intro p
    simp [stylize_main, h4, h]
  · intro h
    have h4 : ¬ (script :: args).length ≠ 4 := by
      simp only [List.length_cons]
      omega
    simp [stylize_main, h4, h, List.getD]

/-- Concrete instantiation of C2: zero arguments trigger usage + exit 1;
three arguments reach the save step. -/
theorem cli_arg_check_witness :
    stylize_main ["stylize.py"] = [CliStep.printUsage, CliStep.exitWith 1] ∧
    CliStep.saveOutput "out.png" ∈
      stylize_main ["stylize.py", "c.jpg", "s.jpg", "out.png"] :=
  ⟨((cli_arg_check "stylize.py" []).1 (by decide)).1,
   (cli_arg_check "stylize.py" ["c.jpg", "s.jpg", "out.png"]).2 rfl⟩

/-! ## The model fetcher (C9)

```
hub_model = hub.load('https://tfhub.dev/google/magenta/arbitrary-image-stylization-v1-256/2')
os.makedirs(local_model_path, exist_ok=True)
tf.saved_model.save(hub_model, local_model_path)
```
-/

/-- One observable step of `fetch_model.py`. -/
inductive FetchStep where
  | hubLoad (url : String)
  | makeDirs (path : String) (existOk : Bool)
  | saveModel (path : String)
  | printMsg (msg : String)
deriving DecidableEq

/-- `local_model_path` of `fetch_model.py`. -/
def local_model_path : String := "/app/saved_model"

/-- The effect trace of a successful run of `fetch_model.py`. -/
def fetch_model_trace : List FetchStep :=
  [FetchStep.hubLoad "https://tfhub.dev/google/magenta/arbitrary-image-stylization-v1-256/2",
   FetchStep.makeDirs local_model_path true,
   FetchStep.saveModel local_model_path,
   FetchStep.printMsg ("Model saved to " ++ local_model_path)]

/-- Semantics of `os.makedirs(path, exist_ok)` on the set of existing
directories: fails (`none`) only when the directory exists and
`exist_ok` is false; otherwise succeeds, creating the directory when it
is absent. -/
def runMakeDirs (dirs : List String) (path : String) (existOk : Bool) :
    Option (List String) :=
  if path ∈ dirs then (if existOk then some dirs else none)
  else some (path :: dirs)

/-- C9: a successful run of the fetcher loads the fixed remote model
artifact and persists it to `/app/saved_model`; the directory is created
before the save with `exist_ok=True`, which succeeds — leaving the
directory present — whether or not it already existed. -/
theorem fetch_model_persists (dirs : List String) :
    (∃ d, runMakeDirs dirs local_model_path true = some d ∧ local_model_path ∈ d) ∧
    fetch_model_trace[0]? =
      some (FetchStep.hubLoad
        "https://tfhub.dev/google/magenta/arbitrary-image-stylization-v1-256/2") ∧
    fetch_model_trace[1]? = some (FetchStep.makeDirs local_model_path true) ∧
    fetch_model_trace[2]? = some (FetchStep.saveModel local_model_path) := by
  refine ⟨?_, rfl, rfl, rfl⟩
  by_cases hmem : local_model_path ∈ dirs
  · exact ⟨dirs, by simp [runMakeDirs, hmem], hmem⟩
  · exact ⟨local_model_path :: dirs, by simp [runMakeDirs, hmem], List.mem_cons_self _ _⟩

/-! ## Decoder-path selection (C5)

```
if path_to_img.lower().endswith(".heic"):
    heif_file = pillow_heif.read_heif(path_to_img)
    ...
else:
    img = Image.open(path_to_img)
```
-/

/-- Which decoder `load_img` of `conversion/stylize.py` uses. -/
inductive DecoderPath where
  | heif
  | general
deriving DecidableEq

/-- The decoder dispatch of `load_img`: the specialized `pillow_heif`
path when the lowercased file name ends in `.heic`, the general-purpose
`PIL.Image.open` path otherwise. -/
def decoderChoice (path : String) : DecoderPath :=
  if path.toLower.endsWith ".heic" then DecoderPath.heif else DecoderPath.general

/-- Modelled from the spec: the one container format that the standard
decoder cannot handle is the exotic HEIC format, which an input exhibits
exactly when its file name, lowercased, ends in `.heic`. -/
def standardDecoderCannotHandle (path : String) : Bool :=
  path.toLower.endsWith ".heic"

/-- C5: the specialized `pillow_heif` decoder path is taken exactly for
the inputs the standard decoder cannot handle (HEIC inputs), and the
general-purpose decoder is used for every other input. -/
theorem heic_decoder_dispatch (p : String) :
    (decoderChoice p = DecoderPath.heif ↔ standardDecoderCannotHandle p = true) ∧
    (decoderChoice p = DecoderPath.general ↔ standardDecoderCannotHandle p = false) := by
  cases h : p.toLower.endsWith ".heic" <;>
    simp [decoderChoice, standardDecoderCannotHandle, h]

/-! ## Tensor shapes through the pipeline (C3, C7)

A tensor shape is its list of dimensions.  `load_img` decodes to
`(h, w, c)`, forces 3 channels (`img.convert("RGB")` resp.
`tf.image.decode_image(..., channels=3)`), resizes the two spatial
dimensions, and prepends a batch dimension of size 1
(`img[tf.newaxis, :]`). -/

/-- `img.convert("RGB")` / `channels=3`: the channel count after decoding
is forced to `3` whatever the decoded count was (alpha discarded,
grayscale expanded). -/
def convertRGB_channelCount : ℕ → ℕ := fun _ => 3

/-- The shape of the tensor returned by `load_img` for a decoded image of
`h` rows, `w` columns and `c` channels: `[1, h', w', 3]` when the resize
shape is defined, `none` otherwise. -/
def loadImgShape (h w c maxDim : ℕ) : Option (List ℕ) :=
  match newShape h w maxDim with
  | (some nh, some nw) => some [1, nh.toNat, nw.toNat, convertRGB_channelCount c]
  | _ => none

theorem loadImgShape_pos (h w c maxDim : ℕ) (hh : 0 < h) (hw : 0 < w) :
    loadImgShape h w c maxDim =
      some [1, (⌊(h : ℚ) * ((maxDim : ℚ) / max (h : ℚ) (w : ℚ))⌋).toNat,
            (⌊(w : ℚ) * ((maxDim : ℚ) / max (h : ℚ) (w : ℚ))⌋).toNat, 3] := by
  rw [loadImgShape, newShape_pos h w maxDim hh hw]
  rfl

/-- C7: for every successfully decoded image with positive spatial
dimensions and any decoded channel count `c`, the tensor returned by
`load_img` has exactly 4 dimensions: a leading batch dimension of size 1,
the resized spatial dimensions, and a trailing channel dimension of
size 3. -/
theorem load_img_output_shape (h w c maxDim : ℕ)
    (hh : 0 < h) (hw : 0 < w) (hm : 0 < maxDim) :
    ∃ nh nw : ℕ,
      loadImgShape h w c maxDim = some [1, nh, nw, 3] ∧
      (nh : ℤ) = ⌊(h : ℚ) * ((maxDim : ℚ) / max (h : ℚ) (w : ℚ))⌋ ∧
      (nw : ℤ) = ⌊(w : ℚ) * ((maxDim : ℚ) / max (h : ℚ) (w : ℚ))⌋ := by
  have hscale : (0 : ℚ) ≤ (maxDim : ℚ) / max (h : ℚ) (w : ℚ) := by
    have : (0 : ℚ) < max (h : ℚ) (w : ℚ) :=
      lt_max_of_lt_left (by exact_mod_cast hh)
    exact div_nonneg (Nat.cast_nonneg _) this.le
  have h1 : (0 : ℤ) ≤ ⌊(h : ℚ) * ((maxDim : ℚ) / max (h : ℚ) (w : ℚ))⌋ :=
    Int.floor_nonneg.mpr (mul_nonneg (Nat.cast_nonneg _) hscale)
  have h2 : (0 : ℤ) ≤ ⌊(w : ℚ) * ((maxDim : ℚ) / max (h : ℚ) (w : ℚ))⌋ :=
    Int.floor_nonneg.mpr (mul_nonneg (Nat.cast_nonneg _) hscale)
  refine ⟨_, _, loadImgShape_pos h w c maxDim hh hw, ?_, ?_⟩
  · exact Int.toNat_of_nonneg h1
  · exact Int.toNat_of_nonneg h2

/-- Concrete instantiation of C7: a 600 by 800 RGBA image (`c = 4`)
loads to shape `(1, 768, 1024, 3)`. -/
theorem load_img_output_shape_witness :
    loadImgShape 600 800 4 1024 = some [1, 768, 1024, 3] := by
  obtain ⟨nh, nw, heq, hnh, hnw⟩ :=
    load_img_output_shape 600 800 4 1024 (by norm_num) (by norm_num) (by norm_num)
  have enh : nh = 768 := by
    have : (nh : ℤ) = 768 := by rw [hnh]; norm_num
    exact_mod_cast this
  have enw : nw = 1024 := by
    have : (nw : ℤ) = 1024 := by rw [hnw]; norm_num
    exact_mod_cast this
  rw [heq, enh, enw]

/-- The shape behaviour of `tensor_to_image`:
```
if np.ndim(tensor) > 3:
    assert tensor.shape[0] == 1
    tensor = tensor[0]
```
`none` models the assertion failing. -/
def tensor_to_image_shape (s : List ℕ) : Option (List ℕ) :=
  if 3 < s.length then
    if s.headD 0 = 1 then some s.tail else none
  else some s

/-- C3: `tensor_to_image` fails by assertion exactly when its input has
more than 3 dimensions and a leading dimension different from 1; and for
every tensor whose shape is one produced by `load_img` — the model output
keeps the batched shape of its input, so this covers the tensor the
pipeline feeds to `tensor_to_image` — the conversion succeeds. -/
theorem tensor_to_image_assert (s : List ℕ) :
    (tensor_to_image_shape s = none ↔ 3 < s.length ∧ s.headD 0 ≠ 1) ∧
    (∀ h w c m : ℕ, 0 < h → 0 < w → 0 < m → ∀ out,
      loadImgShape h w c m = some out →
      ∃ r, tensor_to_image_shape out = some r) := by
  constructor
  · by_cases hlen : 3 < s.length
    · by_cases hhead : s.headD 0 = 1 <;> simp [tensor_to_image_shape, hlen, hhead]
    · simp [tensor_to_image_shape, hlen]
  · intro h w c m hh hw hm out hout
    rw [loadImgShape_pos h w c m hh hw] at hout
    injection hout with hout'
    subst hout'
    exact ⟨_, rfl⟩

/-- Concrete instantiation of C3: a batched shape with leading dimension
2 fails the assertion; the pipeline shape `(1, 768, 1024, 3)` (output of
`load_img` on a 600 by 800 image) succeeds. -/
theorem tensor_to_image_assert_witness :
    tensor_to_image_shape [2, 5, 5, 3] = none ∧
    tensor_to_image_shape [1, 768, 1024, 3] ≠ none := by
  constructor
  · exact ((tensor_to_image_assert [2, 5, 5, 3]).1).mpr (by decide)
  · obtain ⟨r, hr⟩ :=
      (tensor_to_image_assert []).2 600 800 4 1024 (by norm_num) (by norm_num)
        (by norm_num) [1, 768, 1024, 3]
        (by
          rw [loadImgShape_pos 600 800 4 1024 (by norm_num) (by norm_num)]
          norm_num
          decide)
    simp [hr]

/-! ## Pixel values through the pipeline (C4, C8, C10)

A decoded image is a grid of RGB byte values; the normalized tensor is a
grid of rationals.  `tf.image.resize` (bilinear, half-pixel centers)
computes each output pixel by linear interpolation between the two
nearest source rows and columns, with clamped indices and fractional
interpolation weights, exactly as the TensorFlow kernel does. -/

/-- A decoded image: `h` rows, `w` columns, RGB byte values (the result
of `img.convert("RGB")`). -/
structure RawImage where
  h : ℕ
  w : ℕ
  pix : ℕ → ℕ → Fin 3 → ℕ

/-- A 3-channel float tensor of spatial shape `(h, w)`.  The pipeline's
batched tensors always have batch size 1, so the batch axis carries no
data and is tracked by the shape model above. -/
structure Tensor3 where
  h : ℕ
  w : ℕ
  val : ℕ → ℕ → Fin 3 → ℚ

/-- Pixel normalization: integer byte values divided by 255
(`tf.convert_to_tensor(img, dtype=tf.float32) / 255.0`, resp.
`tf.image.convert_image_dtype(img, tf.float32)`). -/
def normalizeImage (img : RawImage) : Tensor3 :=
  ⟨img.h, img.w, fun y x c => (img.pix y x c : ℚ) / 255⟩

/-- Linear interpolation as the resize kernel computes it:
`top + (bottom - top) * lerp`. -/
def lerp (a b t : ℚ) : ℚ := a + (b - a) * t

/-- The source coordinate sampled for output index `outIdx`
(half-pixel centers): `(outIdx + 0.5) * (inSize / outSize) - 0.5`. -/
def srcCoord (inSize outSize outIdx : ℕ) : ℚ :=
  ((outIdx : ℚ) + 1/2) * ((inSize : ℚ) / (outSize : ℚ)) - 1/2

/-- Index of the source row/column below the sample point, clamped at 0. -/
def lowerIdx (x : ℚ) : ℕ := (⌊x⌋).toNat

/-- Index of the source row/column above the sample point, clamped at
`n - 1`. -/
def upperIdx (x : ℚ) (n : ℕ) : ℕ := min (⌈x⌉).toNat (n - 1)

/-- The fractional interpolation weight `in - floor(in)`. -/
def lerpWeight (x : ℚ) : ℚ := x - ⌊x⌋

/-- One output pixel of the bilinear resize of a `hIn × wIn` grid to
`hOut × wOut`: interpolate along x on the two nearest rows, then along
y. -/
def resizePixel (v : ℕ → ℕ → ℚ) (hIn wIn hOut wOut i j : ℕ) : ℚ :=
  let inY := srcCoord hIn hOut i
  let inX := srcCoord wIn wOut j
  let top := lerp (v (lowerIdx inY) (lowerIdx inX))
                  (v (lowerIdx inY) (upperIdx inX wIn)) (lerpWeight inX)
  let bot := lerp (v (upperIdx inY hIn) (lowerIdx inX))
                  (v (upperIdx inY hIn) (upperIdx inX wIn)) (lerpWeight inX)
  lerp top bot (lerpWeight inY)

/-- `tf.image.resize(img, new_shape)`, bilinear, channel-wise. -/
def resizeImage (t : Tensor3) (nh nw : ℕ) : Tensor3 :=
  ⟨nh, nw, fun i j c => resizePixel (fun y x => t.val y x c) t.h t.w nh nw i j⟩

/-- The value content of `load_img`: normalize, then resize to the
computed shape; `none` when the resize shape is undefined. -/
def load_img_tensor (img : RawImage) (maxDim : ℕ) : Option Tensor3 :=
  match newShape img.h img.w maxDim with
  | (some nh, some nw) => some (resizeImage (normalizeImage img) nh.toNat nw.toNat)
  | _ => none

/-- One byte of `tensor_to_image`: `tensor * 255` followed by
`np.array(tensor, dtype=np.uint8)` — truncation toward zero and
reduction modulo 256, with no clamping. -/
def tensorToImageByte (v : ℚ) : ℤ := truncQ (v * 255) % 256

/-- The whole pipeline of the stylize script after the argument check:
decode both inputs from the file system `fs`, load them at
`max_dim = 1024` (content) and `450` (style), invoke the model, convert
the result to bytes, and save at `outPath`.  `none` models an aborted
run. -/
def runPipeline (fs : String → Option RawImage)
    (model : Tensor3 → Tensor3 → Tensor3)
    (contentPath stylePath outPath : String) :
    Option (String × (ℕ → ℕ → Fin 3 → ℤ)) :=
  match fs contentPath, fs stylePath with
  | some cImg, some sImg =>
      match load_img_tensor cImg 1024, load_img_tensor sImg 450 with
      | some ct, some st =>
          some (outPath, fun i j c => tensorToImageByte ((model ct st).val i j c))
      | _, _ => none
  | _, _ => none

/-! ### Range-preservation lemmas -/

theorem lerp_mem {a b t : ℚ} (ha : 0 ≤ a ∧ a ≤ 1) (hb : 0 ≤ b ∧ b ≤ 1)
    (ht : 0 ≤ t ∧ t ≤ 1) : 0 ≤ lerp a b t ∧ lerp a b t ≤ 1 := by
  have e : lerp a b t = a * (1 - t) + b * t := by unfold lerp; ring
  rw [e]
  constructor
  · have h1 := mul_nonneg ha.1 (by linarith : (0 : ℚ) ≤ 1 - t)
    have h2 := mul_nonneg hb.1 ht.1
    linarith
  · have h1 : a * (1 - t) ≤ 1 * (1 - t) :=
      mul_le_mul_of_nonneg_right ha.2 (by linarith)
    have h2 : b * t ≤ 1 * t := mul_le_mul_of_nonneg_right hb.2 ht.1
    linarith

theorem lerpWeight_mem (x : ℚ) : 0 ≤ lerpWeight x ∧ lerpWeight x ≤ 1 := by
  unfold lerpWeight
  constructor
  · have := Int.floor_le x
    linarith
  · have := Int.lt_floor_add_one x
    linarith

theorem resizePixel_mem (v : ℕ → ℕ → ℚ) (hv : ∀ y x, 0 ≤ v y x ∧ v y x ≤ 1)
    (hIn wIn hOut wOut i j : ℕ) :
    0 ≤ resizePixel v hIn wIn hOut wOut i j ∧
    resizePixel v hIn wIn hOut wOut i j ≤ 1 := by
  unfold resizePixel
  exact lerp_mem
    (lerp_mem (hv _ _) (hv _ _) (lerpWeight_mem _))
    (lerp_mem (hv _ _) (hv _ _) (lerpWeight_mem _))
    (lerpWeight_mem _)

theorem normalizeImage_mem (img : RawImage) (hb : ∀ y x c, img.pix y x c ≤ 255)
    (y x : ℕ) (c : Fin 3) :
    0 ≤ (normalizeImage img).val y x c ∧ (normalizeImage img).val y x c ≤ 1 := by
  unfold normalizeImage
  constructor
  · exact div_nonneg (Nat.cast_nonneg _) (by norm_num)
  · rw [div_le_one (by norm_num : (0 : ℚ) < 255)]
    exact_mod_cast hb y x c

theorem floor_mul_255_le {v : ℚ} (h1 : v ≤ 1) : ⌊v * 255⌋ ≤ 255 := by
  have hle : v * 255 ≤ (255 : ℚ) := by nlinarith
  calc ⌊v * 255⌋ ≤ ⌊(255 : ℚ)⌋ := Int.floor_le_floor hle
    _ = 255 := by norm_num

theorem tensorToImageByte_eq_floor {v : ℚ} (h0 : 0 ≤ v) (h1 : v ≤ 1) :
    tensorToImageByte v = ⌊v * 255⌋ := by
  have hv : (0 : ℚ) ≤ v * 255 := by positivity
  have hfl : (0 : ℤ) ≤ ⌊v * 255⌋ := Int.floor_nonneg.mpr hv
  have hub : ⌊v * 255⌋ < 256 := lt_of_le_of_lt (floor_mul_255_le h1) (by norm_num)
  rw [tensorToImageByte, truncQ_of_nonneg hv]
  exact Int.emod_eq_of_lt hfl hub

theorem tensorToImageByte_range {v : ℚ} (h0 : 0 ≤ v) (h1 : v ≤ 1) :
    0 ≤ tensorToImageByte v ∧ tensorToImageByte v ≤ 255 := by
  rw [tensorToImageByte_eq_floor h0 h1]
  exact ⟨Int.floor_nonneg.mpr (by positivity), floor_mul_255_le h1⟩

/-- C4: for every decoded image whose bytes are at most 255, the
normalized tensor produced by `load_img` has all values in `[0, 1]`; the
bilinear resize preserves that range, so every value of the tensor
handed to the model lies in `[0, 1]`; and `tensor_to_image` rescales a
`[0, 1]` value into the 8-bit range `[0, 255]`. -/
theorem pixel_range_invariant (img : RawImage) (m : ℕ)
    (hb : ∀ y x c, img.pix y x c ≤ 255) :
    (∀ y x c, 0 ≤ (normalizeImage img).val y x c ∧
      (normalizeImage img).val y x c ≤ 1) ∧
    (∀ t, load_img_tensor img m = some t →
      ∀ i j c, 0 ≤ t.val i j c ∧ t.val i j c ≤ 1) ∧
    (∀ v : ℚ, 0 ≤ v → v ≤ 1 →
      0 ≤ tensorToImageByte v ∧ tensorToImageByte v ≤ 255) := by
  refine ⟨normalizeImage_mem img hb, ?_, fun v h0 h1 => tensorToImageByte_range h0 h1⟩
  intro t ht i j c
  unfold load_img_tensor at ht
  rcases hns : newShape img.h img.w m with ⟨o1, o2⟩
  rw [hns] at ht
  cases o1 with
  | none => cases o2 <;> simp at ht
  | some a =>
    cases o2 with
    | none => simp at ht
    | some b =>
      simp only at ht
      injection ht with ht'
      subst ht'
      exact resizePixel_mem _ (fun y x => normalizeImage_mem img hb y x c) _ _ _ _ i j

/-- A concrete 1 by 1 decoded image with byte value 128. -/
def sampleImage : RawImage := ⟨1, 1, fun _ _ _ => 128⟩

/-- Concrete instantiation of C4 at `sampleImage`. -/
theorem pixel_range_invariant_witness :
    0 ≤ (normalizeImage sampleImage).val 0 0 0 ∧
    (normalizeImage sampleImage).val 0 0 0 ≤ 1 :=
  (pixel_range_invariant sampleImage 1
    (fun _ _ _ => by norm_num [sampleImage])).1 0 0 0

/-- C10: `tensor_to_image` converts a value `v ∈ [0, 1]` to the byte
`⌊v * 255⌋` (truncating, not rounding), so only `v = 1` maps to 255; a
value outside `[0, 1]` wraps modulo 256 instead of saturating —
`v = 6/5` yields byte 50 (saturation would yield 255) and `v = -1/2`
yields byte 129. -/
theorem tensor_byte_conversion (v : ℚ) (h0 : 0 ≤ v) (h1 : v ≤ 1) :
    tensorToImageByte v = ⌊v * 255⌋ ∧
    (tensorToImageByte v = 255 ↔ v = 1) ∧
    tensorToImageByte (6/5) = 50 ∧
    tensorToImageByte (-(1/2)) = 129 := by
  refine ⟨tensorToImageByte_eq_floor h0 h1, ?_,
    by norm_num [tensorToImageByte, truncQ], by norm_num [tensorToImageByte, truncQ]⟩
  rw [tensorToImageByte_eq_floor h0 h1]
  constructor
  · intro hfl
    have h255 : (255 : ℤ) ≤ ⌊v * 255⌋ := le_of_eq hfl.symm
    have hle : ((255 : ℤ) : ℚ) ≤ v * 255 := Int.le_floor.mp h255
    push_cast at hle
    have : (1 : ℚ) ≤ v := by nlinarith
    exact le_antisymm h1 this
  · intro hv
    subst hv
    norm_num

/-- Concrete instantiation of C10 at `v = 1/2`. -/
theorem tensor_byte_conversion_witness :
    tensorToImageByte (1/2) = ⌊(1/2 : ℚ) * 255⌋ :=
  (tensor_byte_conversion (1/2) (by norm_num) (by norm_num)).1

/-- C8: the pipeline after the argument check is a deterministic function
of the contents of the two input paths and of the model: two runs over
file systems that agree on the content and style paths produce identical
output (the output path only names the file written).  In particular two
runs with identical inputs produce pixel-identical output. -/
theorem pipeline_deterministic (fs₁ fs₂ : String → Option RawImage)
    (model : Tensor3 → Tensor3 → Tensor3) (cp sp op : String)
    (hc : fs₁ cp = fs₂ cp) (hs : fs₁ sp = fs₂ sp) :
    runPipeline fs₁ model cp sp op = runPipeline fs₂ model cp sp op := by
  unfold runPipeline
  rw [hc, hs]

/-- Concrete instantiation of C8: two file systems that agree on the two
input paths but differ elsewhere give identical pipeline output. -/
theorem pipeline_deterministic_witness :
    runPipeline (fun _ => some sampleImage) (fun c _ => c) "c.jpg" "s.jpg" "out.png" =
    runPipeline (fun p => if p = "other" then none else some sampleImage)
      (fun c _ => c) "c.jpg" "s.jpg" "out.png" :=
  pipeline_deterministic _ _ (fun c _ => c) "c.jpg" "s.jpg" "out.png"
    (by
      show some sampleImage = if ("c.jpg" : String) = "other" then none else some sampleImage
      rw [if_neg (show ¬("c.jpg" : String) = "other" by decide)])
    (by
      show some sampleImage = if ("s.jpg" : String) = "other" then none else some sampleImage
      rw [if_neg (show ¬("s.jpg" : String) = "other" by decide)])

end Stylize
